import Mathlib

/-!
Verification of the multi-loader combination subsystem
(`pytorch_lightning/trainer/supporters.py`) against its specification.

The embedding models:
* `TensorRunningAccum` — the windowed running-statistics accumulator
  (numeric values are modelled as exact rationals `ℚ`; a tensor slot holds
  one rational, the buffer is a `List ℚ` of length `window_length`);
* `CycleIterator` — the restarting wrapper around one loader
  (a loader is a finite `List α` of batches);
* `CombinedDataset` / `CombinedLoader` / `CombinedLoaderIterator` — the
  combiner over a flat container of loaders (scalar, sequence, or mapping
  shape, exactly the shapes named in the spec data model).

Python exceptions are modelled with `Except PyError`; `StopIteration`
raised by an iterator protocol method is the `stopIteration` outcome.
`float(`inf`)` lengths are modelled by `Option ℕ` with `none` = infinity.
-/

/-- A Python length value: `some n` is the integer `n`, `none` stands for
`float(`inf`)` (the unbounded sentinel used by `CycleIterator` and
`get_len`). -/
abbrev PyLen := Option ℕ

/-- The Python exceptions that the modelled code can raise.  Message
strings follow the source f-strings, with Python quoting elided. -/
inductive PyError : Type where
  | misconfiguration (msg : String)
  | valueError (msg : String)
  | stopIteration
  | typeError
deriving DecidableEq, Repr

/-- Python `counter >= length` where `length` may be `inf` (`none`):
against `inf` the comparison is always false. -/
def boundReached (length : PyLen) (counter : ℕ) : Bool :=
  match length with
  | none => false
  | some L => decide (L ≤ counter)

/-- Python `min` of two lengths where `none` is `+inf`. -/
def pmin (a b : PyLen) : PyLen :=
  match a, b with
  | none, b => b
  | some a, none => some a
  | some a, some b => some (min a b)

/-- Python `min(iterable)` over length values: raises `ValueError` on an
empty iterable, otherwise folds `min` from the first element. -/
def pyMinFold (l : List PyLen) : Except PyError PyLen :=
  match l with
  | [] => Except.error (PyError.valueError ("min arg is an empty sequence"))
  | x :: xs => Except.ok (xs.foldl pmin x)

/-- Python `max(iterable)` over integer lengths: raises `ValueError` on an
empty iterable, otherwise folds `max` from the first element. -/
def pyMaxFoldNat (l : List ℕ) : Except PyError ℕ :=
  match l with
  | [] => Except.error (PyError.valueError ("max arg is an empty sequence"))
  | x :: xs => Except.ok (xs.foldl max x)

/-- `CycleIterator` state (`supporters.py` lines 233-294): the wrapped
loader, the item bound `length` (`none` = infinite), the currently active
native iterator `_loader_iter` (`none` before `__iter__` has run, mirroring
Python `None`; a native iterator over a list is the list of remaining
items), and the delivered-count `counter`. -/
structure CycleIterator (α : Type) : Type where
  length : PyLen
  loader : List α
  _loader_iter : Option (List α)
  counter : ℕ
deriving DecidableEq, Repr

/-- `CycleIterator.__init__`: `length=None` means infinite (`none`),
`_loader_iter` starts unset, `counter` starts at 0. -/
def CycleIterator.mkInit {α : Type} (loader : List α) (length : Option ℕ) :
    CycleIterator α :=
  ⟨length, loader, none, 0⟩

/-- `CycleIterator.__iter__`: reset `counter` to 0 and create the internal
native iterator over the loader. -/
def CycleIterator.iterStart {α : Type} (s : CycleIterator α) : CycleIterator α :=
  { s with counter := 0, _loader_iter := some s.loader }

/-- Outcome of one `CycleIterator.__next__` call: an item plus the updated
state, or a raised `StopIteration` / `TypeError` with the state as the call
leaves it. -/
inductive NextRes (α : Type) : Type where
  | ok (a : α) (s : CycleIterator α)
  | stopIteration (s : CycleIterator α)
  | typeError (s : CycleIterator α)
deriving DecidableEq, Repr

/-- True exactly on the `stopIteration` outcome. -/
def NextRes.isStop {α : Type} : NextRes α → Bool
  | .stopIteration _ => true
  | _ => false

/-- `CycleIterator.__next__` (lines 267-291).  If `counter >= length` the
guard raises `StopIteration` before the `try` block, leaving the state
unchanged.  Otherwise the fetch runs inside `try..finally`, so `counter`
is incremented on every path through it: a successful fetch, a restart
(`_loader_iter = iter(self.loader)`) followed by a successful fetch, a
restart whose first fetch raises `StopIteration` again (empty loader), and
the `TypeError` from `next(None)` when `_loader_iter` was never created. -/
def CycleIterator.next {α : Type} (s : CycleIterator α) : NextRes α :=
  if boundReached s.length s.counter then NextRes.stopIteration s
  else
    match s._loader_iter with
    | none => NextRes.typeError { s with counter := s.counter + 1 }
    | some (x :: rest) =>
        NextRes.ok x { s with _loader_iter := some rest, counter := s.counter + 1 }
    | some [] =>
        match s.loader with
        | [] => NextRes.stopIteration
            { s with _loader_iter := some s.loader, counter := s.counter + 1 }
        | y :: rest =>
            NextRes.ok y { s with _loader_iter := some rest, counter := s.counter + 1 }

/-- The state a `__next__` call leaves behind, whatever its outcome. -/
def nextState {α : Type} (s : CycleIterator α) : CycleIterator α :=
  match s.next with
  | .ok _ t => t
  | .stopIteration t => t
  | .typeError t => t

/-- `n` successive `__next__` calls (tracking only the evolving state). -/
def iterNext {α : Type} : ℕ → CycleIterator α → CycleIterator α
  | 0, s => s
  | n + 1, s => iterNext n (nextState s)

/-- A source container: a single loader, an ordered sequence of loaders,
or a mapping from names to loaders — the three shapes of the spec data
model (`§3 Source container`). -/
inductive Container (α : Type) : Type where
  | scalar (a : α)
  | seq (l : List α)
  | map (l : List (String × α))
deriving DecidableEq, Repr

/-- Modelled from the spec: `apply_to_collection` (imported from
`pytorch_lightning.utilities.apply_func`, not under `src/`) as used here —
a shape-preserving map applying the leaf transform to every leaf, keeping
sequence order and mapping keys (`§9`: a generic map over a possibly
nested container while preserving its shape; the containers in this model
are the flat scalar/sequence/mapping shapes of `§3`). -/
def mapC {α β : Type} (f : α → β) : Container α → Container β
  | .scalar a => .scalar (f a)
  | .seq l => .seq (l.map f)
  | .map l => .map (l.map (fun p => (p.1, f p.2)))

/-- The shape of a container: the container with every leaf erased. -/
def shapeC {α : Type} (c : Container α) : Container Unit :=
  mapC (fun _ => ()) c

/-- A leaf of `CombinedLoader.loaders`: either a raw loader or one wrapped
in a `CycleIterator` by `_wrap_loaders_max_size_cycle`. -/
inductive Loader (α : Type) : Type where
  | raw (l : List α)
  | cycle (c : CycleIterator α)
deriving DecidableEq, Repr

/-- True exactly on a `CycleIterator`-wrapped leaf. -/
def Loader.isCycle {α : Type} : Loader α → Bool
  | .cycle _ => true
  | .raw _ => false

/-- Modelled from the spec: `get_len` (imported from
`pytorch_lightning.utilities.data`, not under `src/`) — query the leaf's
own reported length (`§4.2`); a finite list reports its length, a
`CycleIterator` reports its `__len__`, i.e. its `length` field
(`supporters.py` lines 293-294), which may be infinite. -/
def lenLoader {α : Type} : Loader α → PyLen
  | .raw l => some l.length
  | .cycle c => c.length

/-- `CombinedDataset.COMPUTE_FUNCS.keys()` (line 301). -/
def COMPUTE_FUNCS_keys : List String := ["min_size", "max_size_cycle"]

/-- `CombinedLoader.SUPPORTED_MODES` (line 394). -/
def SUPPORTED_MODES : List String := ["min_size", "max_size_cycle"]

/-- `CombinedDataset` state after a successful construction; only the
mode matters to the modelled behavior. -/
structure CombinedDataset : Type where
  mode : String
deriving DecidableEq, Repr

/-- `CombinedDataset.__init__` (lines 303-319): store the datasets, then
raise `MisconfigurationException` if the mode is not a key of
`COMPUTE_FUNCS`. -/
def CombinedDataset.mkInit (mode : String) : Except PyError CombinedDataset :=
  if mode ∈ COMPUTE_FUNCS_keys then Except.ok ⟨mode⟩
  else Except.error (PyError.misconfiguration
    ("You have selected unsupported mode " ++ mode ++
      ", please select one the: [min_size, max_size_cycle]."))

/-- `CombinedLoader` state after construction: the (possibly wrapped)
loaders and the mode. -/
structure CombinedLoader (α : Type) : Type where
  loaders : Container (Loader α)
  mode : String
deriving DecidableEq, Repr

/-- `CombinedLoader._wrap_loaders_max_size_cycle` (lines 426-460): compute
`all_lengths` with `get_len` over the container, take the scalar length
directly or reduce a mapping/sequence of lengths with `max` (Python `max`
raises `ValueError` on an empty collection), then replace every leaf of a
mapping or sequence container with `CycleIterator(v, length=length)` —
while a single loader (the plain-`Iterable` branch, lines 456-458) is
deliberately left unwrapped (`pass`). -/
def _wrap_loaders_max_size_cycle {α : Type} (loaders : Container (List α)) :
    Except PyError (Container (Loader α)) := do
  let length ← match mapC List.length loaders with
    | .scalar n => Except.ok n
    | .map l => pyMaxFoldNat (l.map Prod.snd)
    | .seq l => pyMaxFoldNat l
  match loaders with
  | .map l => Except.ok (.map (l.map
      (fun p => (p.1, Loader.cycle (CycleIterator.mkInit p.2 (some length))))))
  | .seq l => Except.ok (.seq (l.map
      (fun v => Loader.cycle (CycleIterator.mkInit v (some length)))))
  | .scalar v => Except.ok (.scalar (Loader.raw v))

/-- `CombinedLoader.__init__` (lines 396-418): build the `CombinedDataset`
(whose constructor already rejects a bad mode), then check
`SUPPORTED_MODES`, then wrap the loaders when the mode is
`max_size_cycle`; in `min_size` mode the loaders stay raw. -/
def CombinedLoader.mkInit {α : Type} (loaders : Container (List α)) (mode : String) :
    Except PyError (CombinedLoader α) := do
  let _ ← CombinedDataset.mkInit mode
  if mode ∈ SUPPORTED_MODES then
    if mode = "max_size_cycle" then do
      let wrapped ← _wrap_loaders_max_size_cycle loaders
      Except.ok ⟨wrapped, mode⟩
    else Except.ok ⟨mapC Loader.raw loaders, mode⟩
  else Except.error (PyError.misconfiguration ("Invalid Mode: " ++ mode))

/-- `CombinedLoader._calc_num_batches` (lines 468-492): `get_len` over the
container, then the scalar length directly, or the `min` over a
mapping/sequence of lengths (Python `min` raises `ValueError` when
empty). -/
def _calc_num_batches {α : Type} (loaders : Container (Loader α)) :
    Except PyError PyLen :=
  match mapC lenLoader loaders with
  | .scalar n => Except.ok n
  | .map l => pyMinFold (l.map Prod.snd)
  | .seq l => pyMinFold l

/-- One live leaf iterator inside a `CombinedLoaderIterator`: the iterator
of a raw loader remembers the loader it came from plus its remaining
items; the iterator of a cycle-wrapped loader is the `CycleIterator`
itself after `__iter__` (it returns `self`). -/
inductive LoaderIter (α : Type) : Type where
  | rawIt (orig rest : List α)
  | cycIt (c : CycleIterator α)
deriving DecidableEq, Repr

/-- `iter(leaf)` as performed by
`CombinedLoaderIterator.create_loader_iters` (lines 549-564): a fresh
native iterator over a raw loader, or `CycleIterator.__iter__` on a
wrapped one. -/
def iterLeaf {α : Type} : Loader α → LoaderIter α
  | .raw l => .rawIt l l
  | .cycle c => .cycIt c.iterStart

/-- The loader object a live leaf iterator belongs to (raw loaders are
not mutated by their iterators; a `CycleIterator` is its own iterator, so
its mutated state is the loader object seen by a later pass). -/
def loaderOf {α : Type} : LoaderIter α → Loader α
  | .rawIt orig _ => .raw orig
  | .cycIt c => .cycle c

/-- `next(leaf_iter)` on one leaf, as performed by `request_next_batch`
via `apply_to_collection(loader_iters, Iterator, next)` (lines 535-547):
an exhausted raw iterator raises `StopIteration`; a `CycleIterator`
translates its own outcome. -/
def stepLeaf {α : Type} : LoaderIter α → Except PyError (α × LoaderIter α)
  | .rawIt _ [] => Except.error PyError.stopIteration
  | .rawIt orig (x :: rest) => Except.ok (x, .rawIt orig rest)
  | .cycIt c =>
      match c.next with
      | .ok a c' => Except.ok (a, .cycIt c')
      | .stopIteration _ => Except.error PyError.stopIteration
      | .typeError _ => Except.error PyError.typeError

/-- `next` over a sequence of leaf iterators, left to right, propagating
the first raised exception. -/
def stepSeq {α : Type} : List (LoaderIter α) →
    Except PyError (List α × List (LoaderIter α))
  | [] => Except.ok ([], [])
  | it :: rest =>
      match stepLeaf it with
      | .error e => .error e
      | .ok (a, it') =>
          match stepSeq rest with
          | .error e => .error e
          | .ok (as, rest') => Except.ok (a :: as, it' :: rest')

/-- `next` over a mapping of leaf iterators, in key order, propagating the
first raised exception and keeping every key. -/
def stepMap {α : Type} : List (String × LoaderIter α) →
    Except PyError (List (String × α) × List (String × LoaderIter α))
  | [] => Except.ok ([], [])
  | (k, it) :: rest =>
      match stepLeaf it with
      | .error e => .error e
      | .ok (a, it') =>
          match stepMap rest with
          | .error e => .error e
          | .ok (rs, rest') => Except.ok ((k, a) :: rs, (k, it') :: rest')

/-- `CombinedLoaderIterator.request_next_batch` (lines 535-547): fetch one
item from every leaf iterator, reassembled in the original container
shape; any leaf exception aborts the whole step. -/
def combinedNext {α : Type} : Container (LoaderIter α) →
    Except PyError (Container α × Container (LoaderIter α))
  | .scalar it =>
      match stepLeaf it with
      | .error e => .error e
      | .ok (a, it') => Except.ok (.scalar a, .scalar it')
  | .seq l =>
      match stepSeq l with
      | .error e => .error e
      | .ok (as, l') => Except.ok (.seq as, .seq l')
  | .map l =>
      match stepMap l with
      | .error e => .error e
      | .ok (rs, l') => Except.ok (.map rs, .map l')

/-- The observable outcome of driving one `CombinedLoaderIterator` with a
given amount of fuel: the aggregated items produced, the exception that
ended the pass (if the fuel sufficed to reach it), and the final leaf
iterator states. -/
structure GoResult (α : Type) : Type where
  items : List (Container α)
  stop : Option PyError
  final : Container (LoaderIter α)
deriving DecidableEq, Repr

/-- Drive `request_next_batch` until an exception ends the pass or the
fuel runs out. -/
def passGo {α : Type} : ℕ → Container (LoaderIter α) → GoResult α
  | 0, it => ⟨[], none, it⟩
  | n + 1, it =>
      match combinedNext it with
      | .error e => ⟨[], some e, it⟩
      | .ok (b, it') =>
          ⟨b :: (passGo n it').items, (passGo n it').stop, (passGo n it').final⟩

/-- The outcome of one full pass over a combiner: the aggregated items,
the pass-ending exception, and the loader container as the pass leaves it
(a `CycleIterator` leaf is mutated in place, a raw loader is untouched by
its iterator). -/
structure PassResult (α : Type) : Type where
  items : List (Container α)
  stop : Option PyError
  loaders : Container (Loader α)
deriving DecidableEq, Repr

/-- One pass: `CombinedLoader.__iter__` materializes a
`CombinedLoaderIterator` whose leaf iterators come from
`create_loader_iters`, then the pass is driven to its end (given enough
fuel). -/
def runPass {α : Type} (fuel : ℕ) (ld : Container (Loader α)) : PassResult α :=
  ⟨(passGo fuel (mapC iterLeaf ld)).items, (passGo fuel (mapC iterLeaf ld)).stop,
    mapC loaderOf (passGo fuel (mapC iterLeaf ld)).final⟩

/-- `TensorRunningAccum` state (lines 41-116): the window size, the lazily
allocated circular buffer (a length-`window_length` list of rationals),
the write cursor, the index of the most recent write, and the wrapped
flag. -/
structure TensorRunningAccum : Type where
  window_length : ℕ
  memory : Option (List ℚ)
  current_idx : ℕ
  last_idx : Option ℕ
  rotated : Bool
deriving DecidableEq, Repr

/-- `TensorRunningAccum.__init__` (also the state `reset()` reinstates). -/
def TensorRunningAccum.mkInit (W : ℕ) : TensorRunningAccum :=
  ⟨W, none, 0, none, false⟩

/-- `TensorRunningAccum.append` (lines 77-97): allocate a zero buffer on
first use, store `x` at the cursor, remember the write index, advance the
cursor modulo the window, and set `rotated` once the cursor returns
to 0. -/
def TensorRunningAccum.append (s : TensorRunningAccum) (x : ℚ) :
    TensorRunningAccum :=
  let m0 := match s.memory with
    | none => List.replicate s.window_length 0
    | some m => m
  let m1 := m0.set s.current_idx x
  let ci := (s.current_idx + 1) % s.window_length
  ⟨s.window_length, some m1, ci, some s.current_idx,
    s.rotated || decide (ci = 0)⟩

/-- `TensorRunningAccum.last` (lines 72-75): the most recently written
slot, or `none` before any append (the buffer is always allocated once
`last_idx` is set). -/
def TensorRunningAccum.last (s : TensorRunningAccum) : Option ℚ :=
  match s.last_idx, s.memory with
  | some i, some m => some (m.getD i 0)
  | _, _ => none

/-- The region `_agg_memory` (lines 111-116) aggregates over: the whole
buffer once rotated, else the slots `[0, current_idx)`; `none` before any
append. -/
def TensorRunningAccum.region (s : TensorRunningAccum) : Option (List ℚ) :=
  match s.last_idx, s.memory with
  | some _, some m => some (if s.rotated then m else m.take s.current_idx)
  | _, _ => none

/-- Option-level `min`: the tensor `min` of a concatenation combines the
minima of the parts. -/
def omin (a b : Option ℚ) : Option ℚ :=
  match a, b with
  | none, b => b
  | some x, none => some x
  | some x, some y => some (min x y)

/-- Option-level `max`. -/
def omax (a b : Option ℚ) : Option ℚ :=
  match a, b with
  | none, b => b
  | some x, none => some x
  | some x, some y => some (max x y)

/-- Tensor `min()` of a buffer region: the least element, `none` when the
region is empty. -/
def listMin (l : List ℚ) : Option ℚ :=
  l.foldr (fun x o => omin (some x) o) none

/-- Tensor `max()` of a buffer region. -/
def listMax (l : List ℚ) : Option ℚ :=
  l.foldr (fun x o => omax (some x) o) none

/-- `TensorRunningAccum.mean` (lines 99-101): the tensor mean over the
valid region. -/
def TensorRunningAccum.mean (s : TensorRunningAccum) : Option ℚ :=
  (s.region).map (fun l => l.sum / (l.length : ℚ))

/-- `TensorRunningAccum.min` (lines 107-109). -/
def TensorRunningAccum.min (s : TensorRunningAccum) : Option ℚ :=
  (s.region).bind listMin

/-- `TensorRunningAccum.max` (lines 103-105). -/
def TensorRunningAccum.max (s : TensorRunningAccum) : Option ℚ :=
  (s.region).bind listMax

/-- Append a whole sequence of values, oldest first. -/
def appendAll (s : TensorRunningAccum) (xs : List ℚ) : TensorRunningAccum :=
  xs.foldl TensorRunningAccum.append s

/-- The buffer contents after appending `xs` into a fresh accumulator of
window `W` (for `1 ≤ W`, `xs ≠ []`): before the first rotation the
values sit in order followed by the unused zero slots; afterwards the
buffer is the chronological last `W` values rotated so that the value at
slot `j` is the latest value whose append index is `j` modulo `W`. -/
def memAfter (W : ℕ) (xs : List ℚ) : List ℚ :=
  if xs.length < W then xs ++ List.replicate (W - xs.length) 0
  else xs.drop (xs.length - xs.length % W) ++
    (xs.drop (xs.length - W)).take (W - xs.length % W)

/-- Claim C1: for a combiner in max_size_cycle mode over two sources of
native lengths 3 and 5 (arbitrary items), construction wraps both sources
in a `CycleIterator` with bound 5, `length()` is 5, and a full fresh pass
yields exactly 5 aggregated items followed by the exhaustion signal: the
length-3 source contributes items 0,1,2 and then, via transparent
restart, items 0 and 1 again, while the length-5 source contributes its 5
original items once.  Any fuel of at least 6 steps observes the same
outcome. -/
theorem claim_C1 {α : Type} (a0 a1 a2 b0 b1 b2 b3 b4 : α) (m : ℕ) :
    CombinedLoader.mkInit (Container.seq [[a0, a1, a2], [b0, b1, b2, b3, b4]])
        "max_size_cycle"
      = Except.ok ⟨Container.seq [Loader.cycle (CycleIterator.mkInit [a0, a1, a2] (some 5)),
          Loader.cycle (CycleIterator.mkInit [b0, b1, b2, b3, b4] (some 5))],
          "max_size_cycle"⟩ ∧
    _calc_num_batches (Container.seq [Loader.cycle (CycleIterator.mkInit [a0, a1, a2] (some 5)),
        Loader.cycle (CycleIterator.mkInit [b0, b1, b2, b3, b4] (some 5))])
      = Except.ok (some 5) ∧
    (runPass (m + 6) (Container.seq
        [Loader.cycle (CycleIterator.mkInit [a0, a1, a2] (some 5)),
         Loader.cycle (CycleIterator.mkInit [b0, b1, b2, b3, b4] (some 5))])).items
      = [Container.seq [a0, b0], Container.seq [a1, b1], Container.seq [a2, b2],
         Container.seq [a0, b3], Container.seq [a1, b4]] ∧
    (runPass (m + 6) (Container.seq
        [Loader.cycle (CycleIterator.mkInit [a0, a1, a2] (some 5)),
         Loader.cycle (CycleIterator.mkInit [b0, b1, b2, b3, b4] (some 5))])).stop
      = some PyError.stopIteration :=
  ⟨rfl, rfl, rfl, rfl⟩

/-- Claim C2: for a combiner in min_size mode over two sources of native
lengths 3 and 5 (arbitrary items), construction leaves the sources raw,
`length()` is 3, and a fresh pass yields exactly 3 aggregated items — the
i-th item combining the i-th item of each source — before the exhaustion
signal.  Any fuel of at least 4 steps observes the same outcome. -/
theorem claim_C2 {α : Type} (a0 a1 a2 b0 b1 b2 b3 b4 : α) (m : ℕ) :
    CombinedLoader.mkInit (Container.seq [[a0, a1, a2], [b0, b1, b2, b3, b4]]) "min_size"
      = Except.ok ⟨Container.seq [Loader.raw [a0, a1, a2],
          Loader.raw [b0, b1, b2, b3, b4]], "min_size"⟩ ∧
    _calc_num_batches (Container.seq [Loader.raw [a0, a1, a2],
        Loader.raw [b0, b1, b2, b3, b4]])
      = Except.ok (some 3) ∧
    (runPass (m + 4) (Container.seq [Loader.raw [a0, a1, a2],
        Loader.raw [b0, b1, b2, b3, b4]])).items
      = [Container.seq [a0, b0], Container.seq [a1, b1], Container.seq [a2, b2]] ∧
    (runPass (m + 4) (Container.seq [Loader.raw [a0, a1, a2],
        Loader.raw [b0, b1, b2, b3, b4]])).stop
      = some PyError.stopIteration :=
  ⟨rfl, rfl, rfl, rfl⟩

/-- Claim C4: constructing a combiner with a mode string outside
{min_size, max_size_cycle} fails during construction with the
`MisconfigurationException` raised by `CombinedDataset.__init__`, before
any loader is wrapped or any iteration state exists. -/
theorem claim_C4 {α : Type} (mode : String) (h : mode ∉ COMPUTE_FUNCS_keys)
    (c : Container (List α)) :
    CombinedLoader.mkInit c mode = Except.error (PyError.misconfiguration
      ("You have selected unsupported mode " ++ mode ++
        ", please select one the: [min_size, max_size_cycle].")) := by
  simp only [CombinedLoader.mkInit, CombinedDataset.mkInit, if_neg h]
  rfl

/-- Witness for claim C4 at the concrete mode of the claim. -/
theorem claim_C4_witness :
    ("bogus" ∉ COMPUTE_FUNCS_keys) ∧
    CombinedLoader.mkInit (Container.scalar ([0] : List ℕ)) "bogus"
      = Except.error (PyError.misconfiguration
        ("You have selected unsupported mode bogus, please select one the: [min_size, max_size_cycle].")) :=
  ⟨by decide, claim_C4 "bogus" (by decide) (Container.scalar [0])⟩

/-- Counterexample to claim C5 as stated: a `CycleIterator` over an empty
source, once started, answers its very first `next()` with the ordinary
`StopIteration` exhaustion signal (after one futile restart that installs
a fresh iterator over the empty loader and bumps `counter` via the
`finally`) — not with a distinct fatal SourceUnderflowError, which does
not exist in the code. -/
theorem claim_C5_counterexample :
    (CycleIterator.mkInit ([] : List ℕ) (some 5)).iterStart.next
      = NextRes.stopIteration ⟨some 5, [], some [], 1⟩ := rfl

/-- Claim C5 as amended: a started `CycleIterator` whose wrapped source is
empty fails on its very first `next()` call with the normal exhaustion
signal (`StopIteration`) — it restarts the empty source once, finds it
still empty, and lets the `StopIteration` propagate instead of looping
forever; no distinct underflow error exists. -/
theorem claim_C5_amended {α : Type} (L : Option ℕ) :
    ((CycleIterator.mkInit ([] : List α) L).iterStart.next).isStop = true := by
  cases L with
  | none => rfl
  | some n =>
    cases n with
    | zero => rfl
    | succ k => rfl

/-- Claim C10: calling `next()` on a `CycleIterator` with a positive bound
before `__iter__` has ever run neither returns an item nor raises the
exhaustion signal: `_loader_iter` is still `None`, so the fetch fails with
a `TypeError` (the `finally` still increments the counter). -/
theorem claim_C10 {α : Type} (loader : List α) (L : ℕ) (h : 0 < L) :
    (CycleIterator.mkInit loader (some L)).next
      = NextRes.typeError ⟨some L, loader, none, 1⟩ := by
  have hb : boundReached (some L) 0 = false := by
    simp only [boundReached, decide_eq_false_iff_not]
    omega
  simp only [CycleIterator.mkInit, CycleIterator.next, hb]
  rfl

/-- Witness for claim C10 at a concrete loader and bound. -/
theorem claim_C10_witness :
    0 < 2 ∧
    (CycleIterator.mkInit ([1, 2, 3] : List ℕ) (some 2)).next
      = NextRes.typeError ⟨some 2, [1, 2, 3], none, 1⟩ :=
  ⟨by decide, claim_C10 [1, 2, 3] 2 (by decide)⟩

/-- One `__next__` call preserves the stored bound and never pushes the
counter past a finite bound it has not yet reached. -/
theorem nextState_bound {α : Type} (L : ℕ) (s : CycleIterator α)
    (h1 : s.length = some L) (h2 : s.counter ≤ L) :
    (nextState s).length = some L ∧ (nextState s).counter ≤ L := by
  unfold nextState CycleIterator.next
  rcases hb : boundReached s.length s.counter with _ | _
  · have hc : s.counter < L := by
      rw [h1] at hb
      simp only [boundReached, decide_eq_false_iff_not] at hb
      omega
    rcases hit : s._loader_iter with _ | l
    · simp only [hb, hit, Bool.false_eq_true, if_false]
      exact ⟨h1, by omega⟩
    · rcases l with _ | ⟨x, rest⟩
      · rcases hl : s.loader with _ | ⟨y, rest'⟩ <;>
          simp only [hb, hit, hl, Bool.false_eq_true, if_false] <;>
          exact ⟨h1, by omega⟩
      · simp only [hb, hit, Bool.false_eq_true, if_false]
        exact ⟨h1, by omega⟩
  · simp only [hb, if_true]
    exact ⟨h1, h2⟩

/-- The invariant of `nextState_bound` propagated along any number of
`__next__` calls from a freshly started iterator. -/
theorem iterNext_bound {α : Type} (L : ℕ) (n : ℕ) (s : CycleIterator α)
    (h1 : s.length = some L) (h2 : s.counter ≤ L) :
    (iterNext n s).length = some L ∧ (iterNext n s).counter ≤ L := by
  induction n generalizing s with
  | zero => exact ⟨h1, h2⟩
  | succ k ih =>
    have h := nextState_bound L s h1 h2
    exact ih (nextState s) h.1 h.2

/-- Claim C6: for a `CycleIterator` with finite bound `L`, after `start()`
and any number of `next()` calls the delivered-count never exceeds `L`,
and once it equals `L` a further `next()` raises the exhaustion signal
with the state — including the native-iterator slot — untouched (the guard
fires before any fetch or restart). -/
theorem claim_C6 {α : Type} (loader : List α) (L n : ℕ) :
    (iterNext n ((CycleIterator.mkInit loader (some L)).iterStart)).counter ≤ L ∧
    ((iterNext n ((CycleIterator.mkInit loader (some L)).iterStart)).counter = L →
      (iterNext n ((CycleIterator.mkInit loader (some L)).iterStart)).next
        = NextRes.stopIteration
            (iterNext n ((CycleIterator.mkInit loader (some L)).iterStart))) := by
  have h := iterNext_bound L n ((CycleIterator.mkInit loader (some L)).iterStart)
    rfl (Nat.zero_le L)
  refine ⟨h.2, fun hc => ?_⟩
  unfold CycleIterator.next
  rw [h.1, hc]
  simp [boundReached]

/-- Witness for claim C6: with a length-2 loader and bound 1, after three
`next()` calls the counter sits at the bound and the next call is a pure
exhaustion signal. -/
theorem claim_C6_witness :
    (iterNext 3 ((CycleIterator.mkInit ([1, 2] : List ℕ) (some 1)).iterStart)).counter ≤ 1 ∧
    (iterNext 3 ((CycleIterator.mkInit ([1, 2] : List ℕ) (some 1)).iterStart)).next
      = NextRes.stopIteration
          (iterNext 3 ((CycleIterator.mkInit ([1, 2] : List ℕ) (some 1)).iterStart)) :=
  ⟨(claim_C6 [1, 2] 1 3).1, (claim_C6 [1, 2] 1 3).2 (by rfl)⟩

/-- Counterexample to claim C8 as stated: a scalar (single-loader)
container is not wrapped at all in max_size_cycle mode — the constructed
combiner's only leaf is still a raw loader, not a `CycleIterator`
(`supporters.py` lines 456-458 deliberately `pass` on a bare iterable). -/
theorem claim_C8_counterexample :
    (CombinedLoader.mkInit (Container.scalar ([0] : List ℕ)) "max_size_cycle").map
      (fun cl => mapC Loader.isCycle cl.loaders)
      = Except.ok (Container.scalar false) := rfl

/-- Python `max` over a nonempty collection, expressed as a left fold, is
an upper bound attained by the start value or one of the elements. -/
theorem foldl_max_spec (x : ℕ) (xs : List ℕ) :
    x ≤ xs.foldl max x ∧ (∀ y ∈ xs, y ≤ xs.foldl max x) ∧
      (xs.foldl max x = x ∨ xs.foldl max x ∈ xs) := by
  induction xs generalizing x with
  | nil => exact ⟨le_refl x, by simp, Or.inl rfl⟩
  | cons y ys ih =>
    have h := ih (max x y)
    refine ⟨le_trans (le_max_left x y) h.1, ?_, ?_⟩
    · intro z hz
      rcases hz with _ | hz
      · exact le_trans (le_max_right x y) h.1
      · exact h.2.1 z (by assumption)
    · rcases h.2.2 with heq | hmem
      · rcases Nat.le_total x y with hxy | hyx
        · right
          rw [List.foldl_cons, heq, Nat.max_eq_right hxy]
          exact List.mem_cons_self y ys
        · left
          rw [List.foldl_cons, heq, Nat.max_eq_left hyx]
      · right
        rw [List.foldl_cons]
        exact List.mem_cons_of_mem y hmem

/-- Construction in max_size_cycle mode on a scalar container: the single
loader is left raw (the plain-`Iterable` `pass` branch). -/
theorem mkInit_max_scalar {α : Type} (l : List α) :
    CombinedLoader.mkInit (Container.scalar l) "max_size_cycle"
      = Except.ok ⟨Container.scalar (Loader.raw l), "max_size_cycle"⟩ := rfl

/-- Construction in max_size_cycle mode on an empty sequence container
fails: Python `max` of an empty collection raises `ValueError`. -/
theorem mkInit_max_seq_nil {α : Type} :
    CombinedLoader.mkInit (Container.seq ([] : List (List α))) "max_size_cycle"
      = Except.error (PyError.valueError ("max arg is an empty sequence")) := rfl

/-- Construction in max_size_cycle mode on a nonempty sequence container:
every leaf is wrapped with the folded `max` of the leaf lengths. -/
theorem mkInit_max_seq {α : Type} (v : List α) (rest : List (List α)) :
    CombinedLoader.mkInit (Container.seq (v :: rest)) "max_size_cycle"
      = Except.ok ⟨Container.seq ((v :: rest).map (fun w => Loader.cycle
          (CycleIterator.mkInit w (some ((rest.map List.length).foldl max v.length))))),
          "max_size_cycle"⟩ := rfl

/-- Construction in max_size_cycle mode on an empty mapping container
fails: Python `max` of an empty collection raises `ValueError`. -/
theorem mkInit_max_map_nil {α : Type} :
    CombinedLoader.mkInit (Container.map ([] : List (String × List α))) "max_size_cycle"
      = Except.error (PyError.valueError ("max arg is an empty sequence")) := rfl

/-- Construction in max_size_cycle mode on a nonempty mapping container:
every value is wrapped with the folded `max` of the value lengths, keys
kept in order. -/
theorem mkInit_max_map {α : Type} (k : String) (v : List α)
    (rest : List (String × List α)) :
    CombinedLoader.mkInit (Container.map ((k, v) :: rest)) "max_size_cycle"
      = Except.ok ⟨Container.map (((k, v) :: rest).map (fun p => (p.1, Loader.cycle
          (CycleIterator.mkInit p.2 (some (((rest.map (fun p => (p.1, p.2.length))).map
            Prod.snd).foldl max v.length)))))), "max_size_cycle"⟩ := rfl

/-- Claim C8 as amended: in max_size_cycle mode every leaf of a
sequence-shaped or mapping-shaped container is replaced at construction
time by a `CycleIterator` with bound `L`, where `L` is the Python `max`
over the loader-level lengths of all leaves (an upper bound attained by
some leaf), and the container shape and key order are preserved; a
scalar-shaped container, however, is left unwrapped (the single loader
stays raw). -/
theorem claim_C8_amended {α : Type} (c : Container (List α)) (cl : CombinedLoader α)
    (h : CombinedLoader.mkInit c "max_size_cycle" = Except.ok cl) :
    (∀ l, c = Container.scalar l → cl.loaders = Container.scalar (Loader.raw l)) ∧
    (∀ ls, c = Container.seq ls → ∃ L,
      (∀ v ∈ ls, v.length ≤ L) ∧ L ∈ ls.map List.length ∧
      cl.loaders = Container.seq (ls.map
        (fun v => Loader.cycle (CycleIterator.mkInit v (some L))))) ∧
    (∀ kvs, c = Container.map kvs → ∃ L,
      (∀ p ∈ kvs, (p.2 : List α).length ≤ L) ∧ L ∈ kvs.map (fun p => p.2.length) ∧
      cl.loaders = Container.map (kvs.map
        (fun p => (p.1, Loader.cycle (CycleIterator.mkInit p.2 (some L)))))) := by
  rcases c with l | ls | kvs
  · refine ⟨fun l' hl' => ?_, fun ls hls => ?_, fun kvs hkvs => ?_⟩
    · injection hl' with h1
      subst h1
      rw [mkInit_max_scalar] at h
      injection h with h2
      subst h2
      rfl
    · exact nomatch hls
    · exact nomatch hkvs
  · refine ⟨fun l' hl' => ?_, fun ls' hls' => ?_, fun kvs hkvs => ?_⟩
    · exact nomatch hl'
    · injection hls' with h1
      subst h1
      rcases ls with _ | ⟨v, rest⟩
      · rw [mkInit_max_seq_nil] at h
        exact nomatch h
      · rw [mkInit_max_seq] at h
        injection h with h2
        subst h2
        refine ⟨(rest.map List.length).foldl max v.length, ?_, ?_, rfl⟩
        · intro w hw
          have hs := foldl_max_spec v.length (rest.map List.length)
          rcases List.mem_cons.mp hw with rfl | hw'
          · exact hs.1
          · exact hs.2.1 w.length (List.mem_map_of_mem List.length hw')
        · have hs := foldl_max_spec v.length (rest.map List.length)
          rw [List.map_cons]
          rcases hs.2.2 with heq | hmem
          · rw [heq]
            exact List.mem_cons_self _ _
          · exact List.mem_cons_of_mem _ hmem
    · exact nomatch hkvs
  · refine ⟨fun l' hl' => ?_, fun ls hls => ?_, fun kvs' hkvs' => ?_⟩
    · exact nomatch hl'
    · exact nomatch hls
    · injection hkvs' with h1
      subst h1
      rcases kvs with _ | ⟨⟨k, v⟩, rest⟩
      · rw [mkInit_max_map_nil] at h
        exact nomatch h
      · rw [mkInit_max_map] at h
        injection h with h2
        subst h2
        have hcol : ((rest.map (fun p => (p.1, (p.2 : List α).length))).map Prod.snd)
            = rest.map (fun p => p.2.length) := by
          simp [List.map_map, Function.comp]
        refine ⟨(rest.map (fun p => p.2.length)).foldl max v.length, ?_, ?_, ?_⟩
        · intro w hw
          have hs := foldl_max_spec v.length (rest.map (fun p => p.2.length))
          rcases List.mem_cons.mp hw with rfl | hw'
          · exact hs.1
          · exact hs.2.1 w.2.length (List.mem_map_of_mem (fun p => p.2.length) hw')
        · have hs := foldl_max_spec v.length (rest.map (fun p => p.2.length))
          rw [List.map_cons]
          rcases hs.2.2 with heq | hmem
          · rw [heq]
            exact List.mem_cons_self _ _
          · exact List.mem_cons_of_mem _ hmem
        · rw [← hcol]

/-- Witness for claim C8 (amended) at a concrete two-source sequence. -/
theorem claim_C8_amended_witness :
    CombinedLoader.mkInit (Container.seq ([[1], [2, 3]] : List (List ℕ))) "max_size_cycle"
      = Except.ok ⟨Container.seq [Loader.cycle (CycleIterator.mkInit [1] (some 2)),
          Loader.cycle (CycleIterator.mkInit [2, 3] (some 2))], "max_size_cycle"⟩ ∧
    (∀ ls, (Container.seq ([[1], [2, 3]] : List (List ℕ))) = Container.seq ls → ∃ L,
      (∀ v ∈ ls, v.length ≤ L) ∧ L ∈ ls.map List.length ∧
      (Container.seq [Loader.cycle (CycleIterator.mkInit ([1] : List ℕ) (some 2)),
          Loader.cycle (CycleIterator.mkInit [2, 3] (some 2))]) = Container.seq (ls.map
        (fun v => Loader.cycle (CycleIterator.mkInit v (some L))))) :=
  ⟨rfl, (claim_C8_amended (Container.seq [[1], [2, 3]])
    ⟨Container.seq [Loader.cycle (CycleIterator.mkInit [1] (some 2)),
      Loader.cycle (CycleIterator.mkInit [2, 3] (some 2))], "max_size_cycle"⟩ rfl).2.1⟩

/-- A successful `next` over a sequence of leaf iterators returns as many
items and as many updated iterators as there were leaves. -/
theorem stepSeq_shape {α : Type} (l : List (LoaderIter α)) (as : List α)
    (l' : List (LoaderIter α)) (h : stepSeq l = Except.ok (as, l')) :
    as.length = l.length ∧ l'.length = l.length := by
  induction l generalizing as l' with
  | nil =>
    simp only [stepSeq] at h
    injection h with h1
    injection h1 with h2 h3
    subst h2
    subst h3
    exact ⟨rfl, rfl⟩
  | cons it rest ih =>
    simp only [stepSeq] at h
    split at h
    · exact nomatch h
    · split at h
      · exact nomatch h
      · rename_i a it' heq1 as0 rest' heq2
        injection h with h1
        injection h1 with h2 h3
        subst h2
        subst h3
        have he := ih as0 rest' heq2
        simp [he.1, he.2]

/-- A successful `next` over a mapping of leaf iterators preserves the key
list of both the returned batch and the updated iterators. -/
theorem stepMap_shape {α : Type} (l : List (String × LoaderIter α))
    (rs : List (String × α)) (l' : List (String × LoaderIter α))
    (h : stepMap l = Except.ok (rs, l')) :
    rs.map Prod.fst = l.map Prod.fst ∧ l'.map Prod.fst = l.map Prod.fst := by
  induction l generalizing rs l' with
  | nil =>
    simp only [stepMap] at h
    injection h with h1
    injection h1 with h2 h3
    subst h2
    subst h3
    exact ⟨rfl, rfl⟩
  | cons p rest ih =>
    obtain ⟨k, it⟩ := p
    simp only [stepMap] at h
    split at h
    · exact nomatch h
    · split at h
      · exact nomatch h
      · rename_i a it' heq1 rs0 rest' heq2
        injection h with h1
        injection h1 with h2 h3
        subst h2
        subst h3
        have he := ih rs0 rest' heq2
        simp [he.1, he.2]

/-- A successful `request_next_batch` returns a batch and updated leaf
iterators of the same container shape as the input. -/
theorem combinedNext_shape {α : Type} (it : Container (LoaderIter α))
    (b : Container α) (it' : Container (LoaderIter α))
    (h : combinedNext it = Except.ok (b, it')) :
    shapeC b = shapeC it ∧ shapeC it' = shapeC it := by
  rcases it with x | l | l
  · simp only [combinedNext] at h
    split at h
    · exact nomatch h
    · injection h with h1
      injection h1 with h2 h3
      subst h2
      subst h3
      exact ⟨rfl, rfl⟩
  · simp only [combinedNext] at h
    split at h
    · exact nomatch h
    · rename_i as l'' heq
      injection h with h1
      injection h1 with h2 h3
      subst h2
      subst h3
      have he := stepSeq_shape l as l'' heq
      constructor
      · simp only [shapeC, mapC, Container.seq.injEq]
        rw [List.map_const', List.map_const', he.1]
      · simp only [shapeC, mapC, Container.seq.injEq]
        rw [List.map_const', List.map_const', he.2]
  · simp only [combinedNext] at h
    split at h
    · exact nomatch h
    · rename_i rs l'' heq
      injection h with h1
      injection h1 with h2 h3
      subst h2
      subst h3
      have he := stepMap_shape l rs l'' heq
      constructor
      · simp only [shapeC, mapC, Container.map.injEq]
        have h4 : ∀ (β : Type) (u : List (String × β)),
            u.map (fun p => (p.1, ())) = (u.map Prod.fst).map (fun k => (k, ())) := by
          intro β u
          rw [List.map_map]
          rfl
        rw [h4, h4, he.1]
      · simp only [shapeC, mapC, Container.map.injEq]
        have h4 : ∀ (β : Type) (u : List (String × β)),
            u.map (fun p => (p.1, ())) = (u.map Prod.fst).map (fun k => (k, ())) := by
          intro β u
          rw [List.map_map]
          rfl
        rw [h4, h4, he.2]

/-- Every aggregated item a pass produces has the shape of the leaf
iterator container the pass started from. -/
theorem passGo_shape {α : Type} (n : ℕ) (it : Container (LoaderIter α)) :
    ∀ b ∈ (passGo n it).items, shapeC b = shapeC it := by
  induction n generalizing it with
  | zero => simp [passGo]
  | succ k ih =>
    intro b hb
    simp only [passGo] at hb
    split at hb
    · exact absurd hb (List.not_mem_nil b)
    · rename_i b0 it' heq
      have hsh := combinedNext_shape it b0 it' heq
      rcases List.mem_cons.mp hb with rfl | hb'
      · exact hsh.1
      · rw [ih it' b hb', hsh.2]

/-- Mapping leaves never changes a container's shape. -/
theorem shapeC_mapC {α β : Type} (f : α → β) (c : Container α) :
    shapeC (mapC f c) = shapeC c := by
  rcases c with a | l | l <;>
    simp [shapeC, mapC, List.map_map, Function.comp_def]

/-- Construction in min_size mode succeeds for every container and mode
set, leaving all loaders raw. -/
theorem mkInit_min {α : Type} (c : Container (List α)) :
    CombinedLoader.mkInit c "min_size"
      = Except.ok ⟨mapC Loader.raw c, "min_size"⟩ := rfl

/-- A successful construction preserves the container shape of the
loaders. -/
theorem mkInit_shape {α : Type} (c : Container (List α)) (mode : String)
    (cl : CombinedLoader α) (h : CombinedLoader.mkInit c mode = Except.ok cl) :
    shapeC cl.loaders = shapeC c := by
  by_cases hmax : mode = "max_size_cycle"
  · subst hmax
    rcases c with l | ls | kvs
    · rw [mkInit_max_scalar] at h
      injection h with h2
      subst h2
      rfl
    · rcases ls with _ | ⟨v, rest⟩
      · rw [mkInit_max_seq_nil] at h
        exact nomatch h
      · rw [mkInit_max_seq] at h
        injection h with h2
        subst h2
        simp [shapeC, mapC, List.map_map, Function.comp_def]
    · rcases kvs with _ | ⟨⟨k, v⟩, rest⟩
      · rw [mkInit_max_map_nil] at h
        exact nomatch h
      · rw [mkInit_max_map] at h
        injection h with h2
        subst h2
        simp [shapeC, mapC, List.map_map, Function.comp_def]
  · by_cases hmin : mode = "min_size"
    · subst hmin
      rw [mkInit_min] at h
      injection h with h2
      subst h2
      exact shapeC_mapC Loader.raw c
    · exfalso
      have hnk : mode ∉ COMPUTE_FUNCS_keys := by
        simp [COMPUTE_FUNCS_keys, hmax, hmin]
      simp only [CombinedLoader.mkInit, CombinedDataset.mkInit, if_neg hnk] at h
      exact nomatch h

/-- Claim C7: every aggregated item produced by an iteration pass over a
successfully constructed combiner has the same container shape as the
original source container (a mapping keeps exactly its keys in order, a
sequence keeps its length and order, a scalar stays scalar); in
particular the mapping {a: length-3, b: length-5} yields 5 dict-shaped
items with keys {a, b} before exhaustion in max_size_cycle mode and 3
such items in min_size mode. -/
theorem claim_C7 :
    (∀ (α : Type) (c : Container (List α)) (mode : String) (cl : CombinedLoader α)
        (fuel : ℕ) (b : Container α),
      CombinedLoader.mkInit c mode = Except.ok cl →
      b ∈ (runPass fuel cl.loaders).items → shapeC b = shapeC c) ∧
    (CombinedLoader.mkInit (Container.map [("a", ([0, 1, 2] : List ℕ)),
        ("b", [3, 4, 5, 6, 7])]) "max_size_cycle").map
      (fun cl => ((runPass 10 cl.loaders).items.map shapeC, (runPass 10 cl.loaders).stop))
      = Except.ok (List.replicate 5 (Container.map [("a", ()), ("b", ())]),
          some PyError.stopIteration) ∧
    (CombinedLoader.mkInit (Container.map [("a", ([0, 1, 2] : List ℕ)),
        ("b", [3, 4, 5, 6, 7])]) "min_size").map
      (fun cl => ((runPass 10 cl.loaders).items.map shapeC, (runPass 10 cl.loaders).stop))
      = Except.ok (List.replicate 3 (Container.map [("a", ()), ("b", ())]),
          some PyError.stopIteration) := by
  refine ⟨?_, rfl, rfl⟩
  intro α c mode cl fuel b hinit hb
  have hb' : b ∈ (passGo fuel (mapC iterLeaf cl.loaders)).items := hb
  have h1 := passGo_shape fuel (mapC iterLeaf cl.loaders) b hb'
  rw [h1, shapeC_mapC iterLeaf cl.loaders]
  exact mkInit_shape c mode cl hinit

/-- Witness for claim C7 at a concrete two-source sequence container in
min_size mode. -/
theorem claim_C7_witness :
    CombinedLoader.mkInit (Container.seq ([[1], [2]] : List (List ℕ))) "min_size"
      = Except.ok ⟨Container.seq [Loader.raw [1], Loader.raw [2]], "min_size"⟩ ∧
    (Container.seq [1, 2]) ∈ (runPass 5 (Container.seq
        [Loader.raw ([1] : List ℕ), Loader.raw [2]])).items ∧
    shapeC (Container.seq [(1 : ℕ), 2])
      = shapeC (Container.seq ([[1], [2]] : List (List ℕ))) :=
  ⟨rfl, by decide, claim_C7.1 ℕ (Container.seq [[1], [2]]) "min_size"
    ⟨Container.seq [Loader.raw [1], Loader.raw [2]], "min_size"⟩ 5
    (Container.seq [1, 2]) rfl (by decide)⟩

/-- A successful `__next__` never changes the wrapped loader or the stored
bound of a `CycleIterator`. -/
theorem next_preserves {α : Type} (c : CycleIterator α) (a : α) (c' : CycleIterator α)
    (h : c.next = NextRes.ok a c') : c'.loader = c.loader ∧ c'.length = c.length := by
  unfold CycleIterator.next at h
  split at h
  · exact nomatch h
  · split at h
    · exact nomatch h
    · injection h with h1 h2
      subst h2
      exact ⟨rfl, rfl⟩
    · split at h
      · exact nomatch h
      · injection h with h1 h2
        subst h2
        exact ⟨rfl, rfl⟩

/-- Restarting a `CycleIterator` that delivered an item restores exactly
the state a restart of the original would produce: `__iter__` depends only
on the loader and the bound. -/
theorem iterStart_next_ok {α : Type} (c : CycleIterator α) (a : α)
    (c' : CycleIterator α) (h : c.next = NextRes.ok a c') :
    c'.iterStart = c.iterStart := by
  have hp := next_preserves c a c' h
  unfold CycleIterator.iterStart
  rw [hp.1, hp.2]

/-- One successful leaf fetch leaves a leaf whose next-pass fresh iterator
is the same as the one the current pass started from. -/
theorem stepLeaf_G {α : Type} (it it' : LoaderIter α) (a : α)
    (h : stepLeaf it = Except.ok (a, it')) :
    iterLeaf (loaderOf it') = iterLeaf (loaderOf it) := by
  rcases it with ⟨orig, rest⟩ | c
  · rcases rest with _ | ⟨x, r⟩
    · exact nomatch h
    · simp only [stepLeaf] at h
      injection h with h1
      injection h1 with h2 h3
      subst h3
      rfl
  · simp only [stepLeaf] at h
    split at h
    · rename_i a0 c' heq
      injection h with h1
      injection h1 with h2 h3
      subst h3
      simp only [loaderOf, iterLeaf, iterStart_next_ok c a0 c' heq]
    · exact nomatch h
    · exact nomatch h

/-- `stepLeaf_G` lifted over a sequence of leaves. -/
theorem stepSeq_G {α : Type} (l : List (LoaderIter α)) (as : List α)
    (l' : List (LoaderIter α)) (h : stepSeq l = Except.ok (as, l')) :
    l'.map (fun x => iterLeaf (loaderOf x)) = l.map (fun x => iterLeaf (loaderOf x)) := by
  induction l generalizing as l' with
  | nil =>
    simp only [stepSeq] at h
    injection h with h1
    injection h1 with h2 h3
    subst h3
    rfl
  | cons it rest ih =>
    cases hstep : stepLeaf it with
    | error e =>
      simp only [stepSeq, hstep] at h
      exact nomatch h
    | ok p =>
      obtain ⟨a, it'⟩ := p
      cases hrec : stepSeq rest with
      | error e =>
        simp only [stepSeq, hstep, hrec] at h
        exact nomatch h
      | ok q =>
        obtain ⟨as0, rest'⟩ := q
        simp only [stepSeq, hstep, hrec] at h
        injection h with h1
        injection h1 with h2 h3
        subst h3
        simp only [List.map_cons, stepLeaf_G it it' a hstep, ih as0 rest' hrec]

/-- `stepLeaf_G` lifted over a mapping of leaves, keys untouched. -/
theorem stepMap_G {α : Type} (l : List (String × LoaderIter α))
    (rs : List (String × α)) (l' : List (String × LoaderIter α))
    (h : stepMap l = Except.ok (rs, l')) :
    l'.map (fun p => (p.1, iterLeaf (loaderOf p.2)))
      = l.map (fun p => (p.1, iterLeaf (loaderOf p.2))) := by
  induction l generalizing rs l' with
  | nil =>
    simp only [stepMap] at h
    injection h with h1
    injection h1 with h2 h3
    subst h3
    rfl
  | cons p rest ih =>
    obtain ⟨k, it⟩ := p
    cases hstep : stepLeaf it with
    | error e =>
      simp only [stepMap, hstep] at h
      exact nomatch h
    | ok q =>
      obtain ⟨a, it'⟩ := q
      cases hrec : stepMap rest with
      | error e =>
        simp only [stepMap, hstep, hrec] at h
        exact nomatch h
      | ok q2 =>
        obtain ⟨rs0, rest'⟩ := q2
        simp only [stepMap, hstep, hrec] at h
        injection h with h1
        injection h1 with h2 h3
        subst h3
        simp only [List.map_cons, stepLeaf_G it it' a hstep, ih rs0 rest' hrec]

/-- One successful aggregated fetch leaves leaf iterators whose next-pass
fresh iterators match those of the current pass's start. -/
theorem combinedNext_G {α : Type} (it : Container (LoaderIter α)) (b : Container α)
    (it' : Container (LoaderIter α)) (h : combinedNext it = Except.ok (b, it')) :
    mapC (fun x => iterLeaf (loaderOf x)) it'
      = mapC (fun x => iterLeaf (loaderOf x)) it := by
  rcases it with x | l | l
  · simp only [combinedNext] at h
    split at h
    · exact nomatch h
    · rename_i a x' heq
      injection h with h1
      injection h1 with h2 h3
      subst h3
      simp only [mapC, stepLeaf_G x x' a heq]
  · simp only [combinedNext] at h
    split at h
    · exact nomatch h
    · rename_i as l'' heq
      injection h with h1
      injection h1 with h2 h3
      subst h3
      simp only [mapC, Container.seq.injEq]
      exact stepSeq_G l as l'' heq
  · simp only [combinedNext] at h
    split at h
    · exact nomatch h
    · rename_i rs l'' heq
      injection h with h1
      injection h1 with h2 h3
      subst h3
      simp only [mapC, Container.map.injEq]
      exact stepMap_G l rs l'' heq

/-- After any amount of driving, the leaf iterators a pass leaves behind
restart to exactly what the pass started from. -/
theorem passGo_G {α : Type} (n : ℕ) (it : Container (LoaderIter α)) :
    mapC (fun x => iterLeaf (loaderOf x)) (passGo n it).final
      = mapC (fun x => iterLeaf (loaderOf x)) it := by
  induction n generalizing it with
  | zero => rfl
  | succ k ih =>
    simp only [passGo]
    split
    · rfl
    · rename_i b it' heq
      rw [ih it', combinedNext_G it b it' heq]

/-- Composition law for the shape-preserving map. -/
theorem mapC_mapC {α β γ : Type} (f : β → γ) (g : α → β) (c : Container α) :
    mapC f (mapC g c) = mapC (fun a => f (g a)) c := by
  rcases c with a | l | l <;> simp [mapC, List.map_map, Function.comp_def]

/-- Restarting a leaf twice is the same as restarting it once. -/
theorem iterLeaf_idem {α : Type} (l : Loader α) :
    iterLeaf (loaderOf (iterLeaf l)) = iterLeaf l := by
  rcases l with l | c <;> rfl

/-- The loaders a finished pass leaves behind produce, on the next
`__iter__`, exactly the leaf iterators the previous pass started from. -/
theorem runPass_reset {α : Type} (fuel : ℕ) (ld : Container (Loader α)) :
    mapC iterLeaf (runPass fuel ld).loaders = mapC iterLeaf ld := by
  show mapC iterLeaf (mapC loaderOf (passGo fuel (mapC iterLeaf ld)).final)
    = mapC iterLeaf ld
  rw [mapC_mapC, passGo_G, mapC_mapC]
  have hfun : (fun l : Loader α => iterLeaf (loaderOf (iterLeaf l))) = iterLeaf :=
    funext iterLeaf_idem
  rw [hfun]

/-- Claim C9: starting a second pass after a first pass over the same
combiner loaders (with the `CycleIterator` leaves mutated in place by the
first pass) yields exactly the same sequence of aggregated items and the
same pass-ending signal: `__iter__` on each leaf resets the cyclic
wrapper's counter and native iterator, so passes are repeatable each
epoch. -/
theorem claim_C9 {α : Type} (fuel : ℕ) (ld : Container (Loader α)) :
    (runPass fuel (runPass fuel ld).loaders).items = (runPass fuel ld).items ∧
    (runPass fuel (runPass fuel ld).loaders).stop = (runPass fuel ld).stop := by
  have h := runPass_reset fuel ld
  constructor
  · show (passGo fuel (mapC iterLeaf (runPass fuel ld).loaders)).items
      = (runPass fuel ld).items
    rw [h]
    rfl
  · show (passGo fuel (mapC iterLeaf (runPass fuel ld).loaders)).stop
      = (runPass fuel ld).stop
    rw [h]
    rfl

/-- Setting the slot just past a prefix writes into the head of the
suffix. -/
theorem set_append_len {β : Type} (l1 l2 : List β) (a : β) :
    (l1 ++ l2).set l1.length a = l1 ++ l2.set 0 a := by
  induction l1 with
  | nil => rfl
  | cons x u ih =>
    simp only [List.cons_append, List.length_cons, List.set_cons_succ, ih]

/-- The `memAfter` buffer before the first rotation. -/
theorem memAfter_lt (W : ℕ) (xs : List ℚ) (h : xs.length < W) :
    memAfter W xs = xs ++ List.replicate (W - xs.length) 0 := by
  rw [memAfter, if_pos h]

/-- The `memAfter` buffer once rotated. -/
theorem memAfter_ge (W : ℕ) (xs : List ℚ) (h : ¬ xs.length < W) :
    memAfter W xs = xs.drop (xs.length - xs.length % W) ++
      (xs.drop (xs.length - W)).take (W - xs.length % W) := by
  rw [memAfter, if_neg h]

/-- With a positive window, `1 % W` vanishes exactly when the window is a
single slot. -/
theorem one_mod_eq_zero_iff (W : ℕ) (hW : 0 < W) : (1 % W = 0) ↔ (W ≤ 1) := by
  constructor
  · intro h
    by_contra hc
    have h2 : 1 % W = 1 := Nat.mod_eq_of_lt (by omega)
    rw [h2] at h
    exact absurd h one_ne_zero
  · intro h
    have hw : W = 1 := by omega
    rw [hw]

/-- Predecessor under `mod` when the remainder is positive. -/
theorem pred_mod_of_pos (W N : ℕ) (hW : 0 < W) (hpos : 0 < N % W) :
    (N - 1) % W = N % W - 1 := by
  have hdm := Nat.div_add_mod N W
  have h1 : N - 1 = W * (N / W) + (N % W - 1) := by omega
  have hlt : N % W < W := Nat.mod_lt N hW
  rw [h1, Nat.mul_add_mod, Nat.mod_eq_of_lt (by omega)]

/-- Predecessor under `mod` when the remainder is zero. -/
theorem pred_mod_of_zero (W N : ℕ) (hW : 0 < W) (hN : 0 < N) (h0 : N % W = 0) :
    (N - 1) % W = W - 1 := by
  have hdm := Nat.div_add_mod N W
  have hWN : W ≤ N := by
    by_contra hlt
    have hmod : N % W = N := Nat.mod_eq_of_lt (by omega)
    omega
  have hq : 1 ≤ N / W := (Nat.one_le_div_iff hW).mpr hWN
  have hq1 : N / W = (N / W - 1) + 1 := by omega
  have hexp : W * (N / W) = W * (N / W - 1) + W := by
    conv_lhs => rw [hq1]
    rw [Nat.mul_add, Nat.mul_one]
  have h1 : N - 1 = W * (N / W - 1) + (W - 1) := by omega
  rw [h1, Nat.mul_add_mod, Nat.mod_eq_of_lt (by omega)]

/-- `omin` is commutative. -/
theorem omin_comm (a b : Option ℚ) : omin a b = omin b a := by
  rcases a with _ | x <;> rcases b with _ | y <;> simp [omin]
  exact min_comm x y

/-- `omin` is associative. -/
theorem omin_assoc (a b c : Option ℚ) : omin (omin a b) c = omin a (omin b c) := by
  rcases a with _ | x <;> rcases b with _ | y <;> rcases c with _ | z <;> simp [omin]
  exact min_assoc x y z

/-- `omax` is commutative. -/
theorem omax_comm (a b : Option ℚ) : omax a b = omax b a := by
  rcases a with _ | x <;> rcases b with _ | y <;> simp [omax]
  exact max_comm x y

/-- `omax` is associative. -/
theorem omax_assoc (a b c : Option ℚ) : omax (omax a b) c = omax a (omax b c) := by
  rcases a with _ | x <;> rcases b with _ | y <;> rcases c with _ | z <;> simp [omax]
  exact max_assoc x y z

/-- The minimum of a concatenation combines the minima of the parts. -/
theorem listMin_append (u v : List ℚ) :
    listMin (u ++ v) = omin (listMin u) (listMin v) := by
  induction u with
  | nil => rfl
  | cons x u ih =>
    show omin (some x) (listMin (u ++ v)) = omin (omin (some x) (listMin u)) (listMin v)
    rw [ih, omin_assoc]

/-- The maximum of a concatenation combines the maxima of the parts. -/
theorem listMax_append (u v : List ℚ) :
    listMax (u ++ v) = omax (listMax u) (listMax v) := by
  induction u with
  | nil => rfl
  | cons x u ih =>
    show omax (some x) (listMax (u ++ v)) = omax (omax (some x) (listMax u)) (listMax v)
    rw [ih, omax_assoc]

/-- Rotating a list never changes its minimum. -/
theorem listMin_parts (l : List ℚ) (n : ℕ) :
    listMin (l.drop n ++ l.take n) = listMin l := by
  rw [listMin_append, omin_comm, ← listMin_append, List.take_append_drop]

/-- Rotating a list never changes its maximum. -/
theorem listMax_parts (l : List ℚ) (n : ℕ) :
    listMax (l.drop n ++ l.take n) = listMax l := by
  rw [listMax_append, omax_comm, ← listMax_append, List.take_append_drop]

/-- Rotating a list never changes its sum. -/
theorem sum_parts (l : List ℚ) (n : ℕ) :
    (l.drop n ++ l.take n).sum = l.sum := by
  rw [List.sum_append, add_comm, ← List.sum_append, List.take_append_drop]

/-- Rotating a list never changes its length. -/
theorem length_parts {β : Type} (l : List β) (n : ℕ) :
    (l.drop n ++ l.take n).length = l.length := by
  rw [List.length_append, Nat.add_comm, ← List.length_append, List.take_append_drop]

/-- Writing one more value at the cursor slot turns the buffer for `ys`
into the buffer for `ys ++ [y]`: the central circular-buffer step. -/
theorem memAfter_set (W : ℕ) (hW : 0 < W) (ys : List ℚ) (y : ℚ) :
    (memAfter W ys).set (ys.length % W) y = memAfter W (ys ++ [y]) := by
  by_cases hNW : ys.length < W
  · have hmod : ys.length % W = ys.length := Nat.mod_eq_of_lt hNW
    rw [memAfter_lt W ys hNW, hmod, set_append_len]
    have hrep : W - ys.length = (W - ys.length - 1) + 1 := by omega
    rw [hrep, List.replicate_succ, List.set_cons_zero]
    by_cases hN1 : (ys ++ [y]).length < W
    · rw [memAfter_lt W (ys ++ [y]) hN1]
      have h2 : W - (ys ++ [y]).length = W - ys.length - 1 := by
        simp only [List.length_append, List.length_singleton]
        omega
      rw [h2, List.append_assoc, List.singleton_append]
    · have hlen : (ys ++ [y]).length = W := by
        simp only [List.length_append, List.length_singleton] at hN1 ⊢
        omega
      rw [memAfter_ge W (ys ++ [y]) hN1, hlen, Nat.mod_self, Nat.sub_zero, Nat.sub_self,
        List.drop_zero, List.drop_eq_nil_of_le (le_of_eq hlen),
        List.take_of_length_le (le_of_eq hlen), List.nil_append]
      have h3 : W - ys.length - 1 = 0 := by
        simp only [List.length_append, List.length_singleton] at hlen
        omega
      rw [h3, List.replicate_zero]
  · have hWN : W ≤ ys.length := Nat.le_of_not_lt hNW
    have hr : ys.length % W < W := Nat.mod_lt _ hW
    rw [memAfter_ge W ys hNW]
    have hlenB : (ys.drop (ys.length - ys.length % W)).length = ys.length % W := by
      rw [List.length_drop]
      omega
    have hset := set_append_len (ys.drop (ys.length - ys.length % W))
      ((ys.drop (ys.length - W)).take (W - ys.length % W)) y
    rw [hlenB] at hset
    rw [hset]
    have hDlt : ys.length - W < ys.length := by omega
    have hD : ys.drop (ys.length - W)
        = ys[ys.length - W] :: ys.drop (ys.length - W + 1) :=
      List.drop_eq_getElem_cons hDlt
    have hWr : W - ys.length % W = (W - ys.length % W - 1) + 1 := by omega
    rw [hD, hWr, List.take_succ_cons, List.set_cons_zero]
    have hlen1 : (ys ++ [y]).length = ys.length + 1 := by
      simp only [List.length_append, List.length_singleton]
    by_cases hr1 : ys.length % W + 1 < W
    · have hmod1 : (ys.length + 1) % W = ys.length % W + 1 := by
        conv_lhs => rw [Nat.add_mod]
        have h1W : 1 % W = 1 := Nat.mod_eq_of_lt (by omega)
        rw [h1W, Nat.mod_eq_of_lt (by omega)]
      have hge1 : ¬ (ys ++ [y]).length < W := by
        rw [hlen1]
        omega
      rw [memAfter_ge W (ys ++ [y]) hge1, hlen1, hmod1]
      have e1 : ys.length + 1 - (ys.length % W + 1) = ys.length - ys.length % W := by
        omega
      rw [e1]
      have e2 : (ys ++ [y]).drop (ys.length - ys.length % W)
          = ys.drop (ys.length - ys.length % W) ++ [y] := by
        rw [List.drop_append_eq_append_drop]
        have h0 : ys.length - ys.length % W - ys.length = 0 := by omega
        rw [h0, List.drop_zero]
      rw [e2]
      have e3 : (ys ++ [y]).drop (ys.length + 1 - W)
          = ys.drop (ys.length + 1 - W) ++ [y] := by
        rw [List.drop_append_eq_append_drop]
        have h0 : ys.length + 1 - W - ys.length = 0 := by omega
        rw [h0, List.drop_zero]
      rw [e3]
      have e4 : (ys.drop (ys.length + 1 - W) ++ [y]).take (W - (ys.length % W + 1))
          = (ys.drop (ys.length + 1 - W)).take (W - (ys.length % W + 1)) := by
        rw [List.take_append_eq_append_take]
        have hl : (ys.drop (ys.length + 1 - W)).length = W - 1 := by
          rw [List.length_drop]
          omega
        have h0 : W - (ys.length % W + 1) - (ys.drop (ys.length + 1 - W)).length = 0 := by
          rw [hl]
          omega
        rw [h0, List.take_zero, List.append_nil]
      rw [e4]
      have e5 : ys.length - W + 1 = ys.length + 1 - W := by omega
      have e6 : W - ys.length % W - 1 = W - (ys.length % W + 1) := by omega
      rw [e5, e6, List.append_assoc, List.singleton_append]
    · have hrW : ys.length % W + 1 = W := by omega
      have hmod0 : (ys.length + 1) % W = 0 := by
        have hdm := Nat.div_add_mod ys.length W
        have h1 : ys.length + 1 = W * (ys.length / W) + W := by omega
        rw [h1, Nat.mul_add_mod, Nat.mod_self]
      have hge1 : ¬ (ys ++ [y]).length < W := by
        rw [hlen1]
        omega
      rw [memAfter_ge W (ys ++ [y]) hge1, hlen1, hmod0]
      simp only [Nat.sub_zero]
      have hd1 : (ys ++ [y]).drop (ys.length + 1) = [] := by
        apply List.drop_eq_nil_of_le
        rw [hlen1]
      rw [hd1, List.nil_append]
      have e3 : (ys ++ [y]).drop (ys.length + 1 - W)
          = ys.drop (ys.length + 1 - W) ++ [y] := by
        rw [List.drop_append_eq_append_drop]
        have h0 : ys.length + 1 - W - ys.length = 0 := by omega
        rw [h0, List.drop_zero]
      rw [e3]
      have e4 : (ys.drop (ys.length + 1 - W) ++ [y]).take W
          = ys.drop (ys.length + 1 - W) ++ [y] := by
        apply List.take_of_length_le
        simp only [List.length_append, List.length_singleton, List.length_drop]
        omega
      rw [e4]
      have e6 : W - ys.length % W - 1 = 0 := by omega
      rw [e6, List.take_zero]
      have e7 : ys.length - ys.length % W = ys.length + 1 - W := by omega
      rw [e7]

/-- Full characterization of the accumulator state after appending a
nonempty sequence `xs` into a fresh window-`W` accumulator: the buffer is
`memAfter W xs`, the cursor sits at `xs.length % W`, the last write at
`(xs.length - 1) % W`, and the buffer has rotated exactly when `W ≤
xs.length`. -/
theorem appendAll_eq (W : ℕ) (hW : 0 < W) (xs : List ℚ) (hxs : xs ≠ []) :
    appendAll (TensorRunningAccum.mkInit W) xs
      = ⟨W, some (memAfter W xs), xs.length % W, some ((xs.length - 1) % W),
          decide (W ≤ xs.length)⟩ := by
  induction xs using List.reverseRecOn with
  | nil => exact absurd rfl hxs
  | append_singleton ys y ih =>
    by_cases hys : ys = []
    · subst hys
      simp only [List.nil_append]
      have hmem := memAfter_set W hW [] y
      simp only [List.nil_append, List.length_nil, Nat.zero_mod] at hmem
      rw [memAfter_lt W [] (by simpa using hW)] at hmem
      simp only [List.nil_append, List.length_nil, Nat.sub_zero] at hmem
      show TensorRunningAccum.append (TensorRunningAccum.mkInit W) y = _
      unfold TensorRunningAccum.append TensorRunningAccum.mkInit
      simp only [TensorRunningAccum.mk.injEq]
      refine ⟨trivial, congrArg some hmem, rfl, congrArg some (Nat.zero_mod W).symm, ?_⟩
      rw [Bool.false_or, decide_eq_decide]
      exact one_mod_eq_zero_iff W hW
    · have hstep : appendAll (TensorRunningAccum.mkInit W) (ys ++ [y])
          = TensorRunningAccum.append (appendAll (TensorRunningAccum.mkInit W) ys) y := by
        simp [appendAll, List.foldl_append]
      rw [hstep, ih hys]
      unfold TensorRunningAccum.append
      simp only [TensorRunningAccum.mk.injEq]
      have hlen : (ys ++ [y]).length = ys.length + 1 := by
        simp only [List.length_append, List.length_singleton]
      refine ⟨trivial, congrArg some (memAfter_set W hW ys y), ?_, ?_, ?_⟩
      · rw [hlen, Nat.add_mod ys.length 1 W, Nat.add_mod (ys.length % W) 1 W,
          Nat.mod_mod_of_dvd ys.length (dvd_refl W)]
      · rw [hlen, Nat.add_sub_cancel]
      · rw [hlen]
        by_cases hWN : W ≤ ys.length
        · have h1 : W ≤ ys.length + 1 := by omega
          simp [hWN, h1]
        · have hlt : ys.length < W := by omega
          have hmod : ys.length % W = ys.length := Nat.mod_eq_of_lt hlt
          rw [hmod]
          by_cases hb : ys.length + 1 = W
          · have h0 : (ys.length + 1) % W = 0 := by
              rw [hb]
              exact Nat.mod_self W
            have h1 : W ≤ ys.length + 1 := by omega
            simp [hWN, h0, h1]
          · have hlt2 : ys.length + 1 < W := by omega
            have h0 : (ys.length + 1) % W = ys.length + 1 := Nat.mod_eq_of_lt hlt2
            have h1 : ¬ W ≤ ys.length + 1 := by omega
            simp [hWN, h0, h1]

/-- The slot holding the most recent write contains the last appended
value. -/
theorem memAfter_getD_last (W : ℕ) (hW : 0 < W) (xs : List ℚ) (hxs : xs ≠ []) :
    (memAfter W xs).getD ((xs.length - 1) % W) 0 = xs.getD (xs.length - 1) 0 := by
  have hN : 0 < xs.length := List.length_pos.mpr hxs
  by_cases hNW : xs.length < W
  · rw [memAfter_lt W xs hNW]
    have h1 : (xs.length - 1) % W = xs.length - 1 := Nat.mod_eq_of_lt (by omega)
    rw [h1, List.getD_eq_getElem?_getD, List.getD_eq_getElem?_getD,
      List.getElem?_append, if_pos (by omega)]
  · have hWN : W ≤ xs.length := by omega
    rw [memAfter_ge W xs hNW]
    by_cases hr : xs.length % W = 0
    · have h1 : (xs.length - 1) % W = W - 1 := pred_mod_of_zero W xs.length hW hN hr
      rw [h1, hr]
      simp only [Nat.sub_zero]
      rw [List.drop_eq_nil_of_le (le_refl xs.length), List.nil_append]
      rw [List.take_of_length_le (by rw [List.length_drop]; omega)]
      rw [List.getD_eq_getElem?_getD, List.getD_eq_getElem?_getD, List.getElem?_drop]
      have h2 : xs.length - W + (W - 1) = xs.length - 1 := by omega
      rw [h2]
    · have hrpos : 0 < xs.length % W := by omega
      have hrlt : xs.length % W < W := Nat.mod_lt _ hW
      have h1 : (xs.length - 1) % W = xs.length % W - 1 :=
        pred_mod_of_pos W xs.length hW hrpos
      rw [h1, List.getD_eq_getElem?_getD, List.getD_eq_getElem?_getD,
        List.getElem?_append,
        if_pos (show xs.length % W - 1
          < (List.drop (xs.length - xs.length % W) xs).length by
            rw [List.length_drop]
            omega),
        List.getElem?_drop]
      have h2 : xs.length - xs.length % W + (xs.length % W - 1) = xs.length - 1 := by
        omega
      rw [h2]

/-- The aggregation region after appending `xs`: the whole buffer once
rotated, otherwise exactly the appended values. -/
theorem region_eq (W : ℕ) (hW : 0 < W) (xs : List ℚ) (hxs : xs ≠ []) :
    (appendAll (TensorRunningAccum.mkInit W) xs).region
      = some (if W ≤ xs.length then memAfter W xs else xs) := by
  rw [appendAll_eq W hW xs hxs]
  unfold TensorRunningAccum.region
  dsimp only
  by_cases hWN : W ≤ xs.length
  · have hd : decide (W ≤ xs.length) = true := decide_eq_true hWN
    rw [hd, if_pos rfl, if_pos hWN]
  · have hd : decide (W ≤ xs.length) = false := decide_eq_false hWN
    rw [hd, if_neg Bool.false_ne_true]
    have hmod : xs.length % W = xs.length := Nat.mod_eq_of_lt (by omega)
    rw [hmod, memAfter_lt W xs (by omega)]
    rw [List.take_left, if_neg hWN]

/-- Once rotated, the buffer is a rotation of the chronological last `W`
values. -/
theorem memAfter_parts (W : ℕ) (hW : 0 < W) (xs : List ℚ) (hWN : W ≤ xs.length) :
    memAfter W xs
      = (xs.drop (xs.length - W)).drop (W - xs.length % W)
        ++ (xs.drop (xs.length - W)).take (W - xs.length % W) := by
  rw [memAfter_ge W xs (by omega)]
  congr 1
  rw [List.drop_drop]
  congr 1
  have hr : xs.length % W < W := Nat.mod_lt _ hW
  omega

/-- Claim C3: for every window size `W ≥ 1` and nonempty value sequence
`xs` appended into a fresh accumulator, `last()` is the most recently
appended value; while fewer than `W` values have been appended,
`mean/min/max` aggregate over all appended values; once at least `W` have
been appended they aggregate over exactly the most recent `W` values
(`xs.drop (xs.length - W)`). -/
theorem claim_C3 (W : ℕ) (hW : 1 ≤ W) (xs : List ℚ) (hxs : xs ≠ []) :
    (appendAll (TensorRunningAccum.mkInit W) xs).last = xs.getLast? ∧
    (xs.length < W →
      (appendAll (TensorRunningAccum.mkInit W) xs).mean
        = some (xs.sum / (xs.length : ℚ)) ∧
      (appendAll (TensorRunningAccum.mkInit W) xs).min = listMin xs ∧
      (appendAll (TensorRunningAccum.mkInit W) xs).max = listMax xs) ∧
    (W ≤ xs.length →
      (appendAll (TensorRunningAccum.mkInit W) xs).mean
        = some ((xs.drop (xs.length - W)).sum / ((xs.drop (xs.length - W)).length : ℚ)) ∧
      (appendAll (TensorRunningAccum.mkInit W) xs).min
        = listMin (xs.drop (xs.length - W)) ∧
      (appendAll (TensorRunningAccum.mkInit W) xs).max
        = listMax (xs.drop (xs.length - W))) := by
  have hN : 0 < xs.length := List.length_pos.mpr hxs
  refine ⟨?_, fun hlt => ?_, fun hge => ?_⟩
  · rw [appendAll_eq W hW xs hxs]
    unfold TensorRunningAccum.last
    dsimp only
    rw [memAfter_getD_last W hW xs hxs, List.getLast?_eq_getElem?,
      List.getD_eq_getElem?_getD, List.getElem?_eq_getElem (by omega)]
    rfl
  · unfold TensorRunningAccum.mean TensorRunningAccum.min TensorRunningAccum.max
    rw [region_eq W hW xs hxs, if_neg (by omega)]
    exact ⟨rfl, rfl, rfl⟩
  · unfold TensorRunningAccum.mean TensorRunningAccum.min TensorRunningAccum.max
    rw [region_eq W hW xs hxs, if_pos hge, memAfter_parts W hW xs hge]
    refine ⟨?_, ?_, ?_⟩
    · simp only [Option.map_some']
      rw [sum_parts, length_parts]
    · simp only [Option.some_bind]
      rw [listMin_parts]
    · simp only [Option.some_bind]
      rw [listMax_parts]

/-- Witness for claim C3 at window 2 and the value sequence 1, 2, 3. -/
theorem claim_C3_witness :
    1 ≤ 2 ∧ (([1, 2, 3] : List ℚ) ≠ []) ∧
    ((appendAll (TensorRunningAccum.mkInit 2) [1, 2, 3]).last
        = ([1, 2, 3] : List ℚ).getLast? ∧
      (([1, 2, 3] : List ℚ).length < 2 →
        (appendAll (TensorRunningAccum.mkInit 2) [1, 2, 3]).mean
          = some (([1, 2, 3] : List ℚ).sum / ((([1, 2, 3] : List ℚ).length : ℚ))) ∧
        (appendAll (TensorRunningAccum.mkInit 2) [1, 2, 3]).min
          = listMin [1, 2, 3] ∧
        (appendAll (TensorRunningAccum.mkInit 2) [1, 2, 3]).max
          = listMax [1, 2, 3]) ∧
      (2 ≤ ([1, 2, 3] : List ℚ).length →
        (appendAll (TensorRunningAccum.mkInit 2) [1, 2, 3]).mean
          = some ((([1, 2, 3] : List ℚ).drop (([1, 2, 3] : List ℚ).length - 2)).sum
              / (((([1, 2, 3] : List ℚ).drop (([1, 2, 3] : List ℚ).length - 2)).length : ℚ))) ∧
        (appendAll (TensorRunningAccum.mkInit 2) [1, 2, 3]).min
          = listMin (([1, 2, 3] : List ℚ).drop (([1, 2, 3] : List ℚ).length - 2)) ∧
        (appendAll (TensorRunningAccum.mkInit 2) [1, 2, 3]).max
          = listMax (([1, 2, 3] : List ℚ).drop (([1, 2, 3] : List ℚ).length - 2)))) :=
  ⟨by decide, by decide, claim_C3 2 (by decide) [1, 2, 3] (by decide)⟩
